import Mathlib

/-!
Shallow embedding of `c7n/resources/org.py` (cloud-custodian org accounts
module): the credential-scoped concurrent fan-out engine
(`ProcessAccountSet.process_account` / `process_account_set`), the
organizational-unit tree walker (`AccountHierarchy.get_ous_for_roots`,
`OrganizationUnit.process`), the per-worker session cache
(`account_session`) and the memoized root session
(`OrgAccess.get_org_session`).

Python dicts keyed by strings are modelled as functions `String → Option β`
(later assignment overwrites).  Python values stored in region-result dicts
are modelled by the small dynamic-value type `PyVal`; the failure marker
written by the `except` branch of `process_account` is the Python value
`False`, i.e. `PyVal.vbool false`.  Sessions are an opaque type parameter;
the external credential provider `assumed_session` is an explicit function
argument.  Fallible calls return `Except`.  The unbounded `while` loop of
`get_ous_for_roots` is given explicit fuel and returns `Option`.
-/

namespace CustodianOrg

/-- Source: `ORG_ACCOUNT_SESSION_NAME = "CustodianOrgAccount"` (org.py line 22). -/
def ORG_ACCOUNT_SESSION_NAME : String := "CustodianOrgAccount"

/-- A minimal model of dynamic Python values as they appear in region-result
dicts: the caller-supplied operation may return booleans, numbers or
strings; the `except` branch stores the Python literal `False`. -/
inductive PyVal where
  | vbool : Bool → PyVal
  | vnat : Nat → PyVal
  | vstr : String → PyVal
deriving DecidableEq

/-- An account record as used by the module: `a["Id"]`, `a["Name"]`. -/
structure Account where
  Id : String
  Name : String
deriving DecidableEq

/-- A Python dict keyed by strings, as a lookup function. -/
abbrev SDict (β : Type) := String → Option β

/-- The empty dict `{}`. -/
def SDict.empty {β : Type} : SDict β := fun _ => none

/-- Dict assignment `d[k] = v` (overwrites any previous value). -/
def SDict.insert {β : Type} (d : SDict β) (k : String) (v : β) : SDict β :=
  fun x => if x = k then some v else d x

/-- Source: `ProcessAccountSet.resolve_regions` (org.py lines 179-180):
`self.data.get("regions", ("us-east-1",))`. -/
def resolve_regions (dataRegions : Option (List String)) : List String :=
  dataRegions.getD ["us-east-1"]

/-- The body of the per-region `try/except` in
`ProcessAccountSet.process_account` (org.py lines 194-205): the value stored
for region `r` is the operation's return value, or the Python literal
`False` when the operation raises. -/
def regionOutcome {σ : Type} (op : Account → String → σ → Except String PyVal)
    (a : Account) (r : String) (s : σ) : PyVal :=
  match op a r s with
  | Except.ok v => v
  | Except.error _ => PyVal.vbool false

/-- Source: `ProcessAccountSet.process_account` (org.py lines 185-206):
iterate the resolved region list, storing per region either the return value
of `process_account_region` or `False` when it raises. -/
def process_account {σ : Type} (op : Account → String → σ → Except String PyVal)
    (regions : List String) (a : Account) (s : σ) : SDict PyVal :=
  regions.foldl (fun d r => d.insert r (regionOutcome op a r s)) SDict.empty

/-- The submission loop of `process_account_set` (org.py lines 213-228):
each resource whose `account_session` call succeeds yields a submitted task
paired with its session; a resource whose resolution raises `ClientError`
is logged and skipped. -/
def tasksOf {σ : Type} (resolveSession : Account → Except String σ)
    (resources : List Account) : List (Account × σ) :=
  resources.filterMap fun a =>
    match resolveSession a with
    | Except.ok s => some (a, s)
    | Except.error _ => none

/-- The fan-in loop of `process_account_set` (org.py lines 229-240): for each
completed task, a task that raised (`f.exception()`) is logged and skipped,
otherwise `account_results[a["Id"]] = f.result()`. -/
def runTaskFold {σ : Type}
    (runTask : Account → σ → Except String (SDict PyVal))
    (tasks : List (Account × σ)) (acc : SDict (SDict PyVal)) :
    SDict (SDict PyVal) :=
  tasks.foldl
    (fun acc p =>
      match runTask p.1 p.2 with
      | Except.ok m => acc.insert p.1.Id m
      | Except.error _ => acc)
    acc

/-- Source: `ProcessAccountSet.process_account_set` (org.py lines 208-241).
`resolveSession` models the `account_session` call; `runTask` models the
outcome observed at the future-completion boundary for the submitted
`process_account` task (an `Except.error` is an unexpected failure escaping
the task's own handling, surfaced by `f.exception()`). -/
def process_account_set {σ : Type} (resolveSession : Account → Except String σ)
    (runTask : Account → σ → Except String (SDict PyVal))
    (resources : List Account) : SDict (SDict PyVal) :=
  runTaskFold runTask (tasksOf resolveSession resources) SDict.empty

/-- `process_account_set` in the normal case where every submitted
`process_account` task runs to completion (its own `try/except` already
catches per-region operation failures). -/
def process_account_set_run {σ : Type}
    (resolveSession : Account → Except String σ)
    (op : Account → String → σ → Except String PyVal)
    (regions : List String) (resources : List Account) :
    SDict (SDict PyVal) :=
  process_account_set resolveSession
    (fun a s => Except.ok (process_account op regions a s)) resources

/-- The child types passed as `ChildType` to the paginated `list_children`
API used by `AccountHierarchy` (org.py lines 139-158). -/
inductive ChildType where
  | organizationalUnit
  | account
deriving DecidableEq

/-- The listing collaborator: `client.get_paginator("list_children")`
flattened over all pages — for a parent id and child type, the ids of the
matching children. -/
abbrev Client := String → ChildType → List String

/-- The group-typed children of a node, as listed by
`pager.paginate(ParentId=r, ChildType="ORGANIZATIONAL_UNIT")`. -/
def ouChildren (client : Client) (p : String) : List String :=
  client p ChildType.organizationalUnit

/-- One parent-to-group-child step of the hierarchy. -/
def ouChild (client : Client) (p c : String) : Prop := c ∈ ouChildren client p

/-- The `while roots:` loop of `AccountHierarchy.get_ous_for_roots`
(org.py lines 152-157), with explicit fuel: pop the head of `roots`,
extend `roots` with the popped node's group-typed children and add them to
`folders`.  Returns the final `folders` set together with the final state
of the (mutated) `roots` list, or `none` when the fuel runs out. -/
def getOusForRootsLoop (client : Client) :
    Nat → List String → Finset String → Option (Finset String × List String)
  | _, [], folders => some (folders, [])
  | 0, _ :: _, _ => none
  | fuel + 1, r :: rs, folders =>
    getOusForRootsLoop client fuel (rs ++ ouChildren client r)
      (folders ∪ (ouChildren client r).toFinset)

/-- Source: `AccountHierarchy.get_ous_for_roots` (org.py lines 148-158):
`folders = set(roots)` followed by the frontier loop.  The second component
of the result is the final state of the caller's `roots` list, which the
Python code mutates in place. -/
def get_ous_for_roots (client : Client) (fuel : Nat) (roots : List String) :
    Option (Finset String × List String) :=
  getOusForRootsLoop client fuel roots roots.toFinset

/-- Source: `AccountHierarchy.get_accounts_for_ous` (org.py lines 139-146):
union of the account-typed children of every given ou. -/
def get_accounts_for_ous (client : Client) (ous : Finset String) : Finset String :=
  ous.biUnion fun o => (client o ChildType.account).toFinset

/-- The mutable part of an `OrganizationUnit` filter instance that matters
here: `self.data["units"]`, the configured root ou ids. -/
structure OUFilterData where
  units : List String
deriving DecidableEq

/-- Source: `OrganizationUnit.process` (org.py lines 166-175): expand the
configured units to the ou set, collect their account ids, and keep only
resources whose id is among them.  Returns the surviving resources paired
with the post-call state of `self.data["units"]` (shared by reference with
the list `get_ous_for_roots` drains). -/
def ouFilterProcess (client : Client) (fuel : Nat) (st : OUFilterData)
    (resources : List Account) : Option (List Account × OUFilterData) :=
  match get_ous_for_roots client fuel st.units with
  | none => none
  | some (ous, rem) =>
    let account_ids := get_accounts_for_ous client ous
    some (resources.filter (fun r => decide (r.Id ∈ account_ids)), ⟨rem⟩)

/-- Fuel bound for the frontier loop: with at most `b` group children per
node, expanding a node of rank `k` costs at most `expandCost b k` pops. -/
def expandCost (b : Nat) : Nat → Nat
  | 0 => 1
  | k + 1 => 1 + b * expandCost b k

/-- Models Python `role.format(org_account_id=account["Id"])` (org.py line
332) for role templates whose only placeholder is `org_account_id`: every
occurrence of the placeholder is replaced by the account id. -/
def pyFormatOrgAccountId (template accountId : String) : String :=
  template.replace "{org_account_id}" accountId

/-- Models Python `s.startswith(pre)`: a character-level prefix test. -/
def strStartsWith (s pre : String) : Bool := pre.data.isPrefixOf s.data

/-- Role-identifier resolution inside `account_session` (org.py lines
331-334): a template already starting with `"arn"` gets the account id
substituted; a bare role name is synthesized into
`arn:aws:iam::<id>:role/<name>` (partition constant `arn:aws`). -/
def resolveRoleArn (role accountId : String) : String :=
  if strStartsWith role "arn" then pyFormatOrgAccountId role accountId
  else "arn:aws:iam::" ++ accountId ++ ":role/" ++ role

/-- Observable result of one `account_session` call: the returned session,
the post-call worker-local cache (`ACCOUNT_SESSION.org_accounts`), and the
role arns passed to `assumed_session` during the call. -/
structure ASResult (σ : Type) where
  s : σ
  cache : List (String × σ)
  calls : List String

/-- Source: `account_session` (org.py lines 324-349): resolve the role arn,
return the worker-cached session on a hit, otherwise assume the role from
the org session under `ORG_ACCOUNT_SESSION_NAME` and cache the new session
under the resolved arn. -/
def account_session {σ : Type}
    (assumedSession : String → String → String → σ → σ)
    (cache : List (String × σ)) (orgSession : σ) (orgRegion : String)
    (a : Account) (role : String) : ASResult σ :=
  match cache.lookup (resolveRoleArn role a.Id) with
  | some s => ⟨s, cache, []⟩
  | none =>
    ⟨assumedSession (resolveRoleArn role a.Id) ORG_ACCOUNT_SESSION_NAME
        orgRegion orgSession,
      (resolveRoleArn role a.Id,
        assumedSession (resolveRoleArn role a.Id) ORG_ACCOUNT_SESSION_NAME
          orgRegion orgSession) :: cache,
      [resolveRoleArn role a.Id]⟩

/-- Source: `OrgAccess.parse_access_role` (org.py lines 28-32): merge the
`query` parameter dicts in order and read `"org-access-role"`. -/
def parse_access_role (query : List (List (String × String))) : Option String :=
  (query.foldl (fun d q => q.foldl (fun d kv => SDict.insert d kv.1 kv.2) d)
    SDict.empty) "org-access-role"

/-- Observable result of one `get_org_session` call: the returned session,
the post-call memo field `self.org_session`, and the role arns passed to
`assumed_session` during the call. -/
structure GOSResult (σ : Type) where
  s : σ
  session : Option σ
  calls : List String

/-- Source: `OrgAccess.get_org_session` (org.py lines 34-55): return the
memoized session if set; otherwise, when a truthy org-access-role is
configured and we are not in a Lambda execution with a `member-role` mode,
assume that role from the local session under `ORG_ACCOUNT_SESSION_NAME`;
in every other case memoize and return the local session.
`lambdaTaskRoot` models `"LAMBDA_TASK_ROOT" in os.environ`; `memberRole`
models the truthiness of `self.data.get("mode", {}).get("member-role")`. -/
def get_org_session {σ : Type}
    (assumedSession : String → String → String → σ → σ) (localSession : σ)
    (factoryRegion : String) (lambdaTaskRoot memberRole : Bool)
    (query : List (List (String × String))) (orgSession : Option σ) :
    GOSResult σ :=
  match orgSession with
  | some s => ⟨s, some s, []⟩
  | none =>
    match parse_access_role query with
    | some r =>
      if r ≠ "" ∧ ¬(lambdaTaskRoot ∧ memberRole) then
        ⟨assumedSession r ORG_ACCOUNT_SESSION_NAME factoryRegion localSession,
          some (assumedSession r ORG_ACCOUNT_SESSION_NAME factoryRegion
            localSession), [r]⟩
      else ⟨localSession, some localSession, []⟩
    | none => ⟨localSession, some localSession, []⟩

/-! Concrete fixtures used by witness theorems. -/

/-- Witness fixture hierarchy: root `"R"` has group child `"A"` and
account child `"B"`; `"A"` has group child `"C"`. -/
def demoClient : Client := fun p t =>
  match t with
  | ChildType.organizationalUnit =>
    if p = "R" then ["A"] else if p = "A" then ["C"] else []
  | ChildType.account => if p = "R" then ["B"] else []

/-- Witness fixture: same group hierarchy as `demoClient`, different
account listings. -/
def demoClientB : Client := fun p t =>
  match t with
  | ChildType.organizationalUnit =>
    if p = "R" then ["A"] else if p = "A" then ["C"] else []
  | ChildType.account => []

/-- Witness fixture: a rank function certifying `demoClient`'s group
hierarchy acyclic. -/
def demoRank : String → Nat := fun s =>
  if s = "R" then 2 else if s = "A" then 1 else 0

/-- Witness fixture: identity resolution that fails for account id `"111"`. -/
def demoResolve : Account → Except String Nat := fun a =>
  if a.Id = "111" then Except.error "denied" else Except.ok 7

/-- Witness fixture: a per-region operation that raises in `"east"` and
succeeds in `"west"`. -/
def demoOp : Account → String → Nat → Except String PyVal := fun _ r _ =>
  if r = "east" then Except.error "boom" else Except.ok (PyVal.vstr "good")

/-- Witness fixture target whose identity resolution fails. -/
def T1 : Account := ⟨"111", "T1"⟩

/-- Witness fixture target whose identity resolution succeeds. -/
def T2 : Account := ⟨"222", "T2"⟩

/-- Witness fixture target for the task-error scenario. -/
def T3 : Account := ⟨"333", "T3"⟩

/-- Witness fixture: a completed region map holding a failure marker. -/
def demoTaskMap : SDict PyVal := fun r =>
  if r = "east" then some (PyVal.vbool false) else none

/-- Witness fixture: a task harness that fails unexpectedly for account id
`"222"` and completes with `demoTaskMap` otherwise. -/
def demoRunTask : Account → Nat → Except String (SDict PyVal) := fun a _ =>
  if a.Id = "222" then Except.error "bug" else Except.ok demoTaskMap

end CustodianOrg

namespace CustodianOrg

theorem SDict.insert_lookup {β : Type} (d : SDict β) (k : String) (v : β)
    (x : String) : (d.insert k v) x = if x = k then some v else d x := rfl

theorem foldl_insert_lookup {β : Type} (f : String → β) :
    ∀ (rs : List String) (d : SDict β) (x : String),
      (rs.foldl (fun d r => SDict.insert d r (f r)) d) x =
        if x ∈ rs then some (f x) else d x := by
  intro rs
  induction rs with
  | nil => intro d x; simp
  | cons r rs ih =>
    intro d x
    simp only [List.foldl_cons]
    rw [ih]
    by_cases hx : x ∈ rs
    · simp [hx]
    · by_cases hxr : x = r
      · subst hxr
        simp [hx, SDict.insert]
      · simp [hx, hxr, SDict.insert]

theorem process_account_lookup {σ : Type}
    (op : Account → String → σ → Except String PyVal)
    (regions : List String) (a : Account) (s : σ) (r : String) :
    process_account op regions a s r =
      if r ∈ regions then some (regionOutcome op a r s) else none := by
  unfold process_account
  rw [foldl_insert_lookup (fun r => regionOutcome op a r s) regions SDict.empty r]
  rfl

/-- Claim C2: for every target whose identity resolution succeeds, the
per-target region map contains exactly one entry for every region of the
configured region list (default `["us-east-1"]`) — the operation's return
value when the operation succeeds, the failure marker `False` when it
raises — never absent, and a failure caught in one region never prevents
the remaining regions from being recorded. -/
theorem claim2_per_region_completeness {σ : Type}
    (op : Account → String → σ → Except String PyVal)
    (dataRegions : Option (List String)) (a : Account) (s : σ) :
    (∀ r, r ∈ resolve_regions dataRegions →
        process_account op (resolve_regions dataRegions) a s r =
          some (regionOutcome op a r s)
        ∧ (∀ v, op a r s = Except.ok v → regionOutcome op a r s = v)
        ∧ (∀ e, op a r s = Except.error e →
            regionOutcome op a r s = PyVal.vbool false))
    ∧ (∀ r, r ∉ resolve_regions dataRegions →
        process_account op (resolve_regions dataRegions) a s r = none)
    ∧ resolve_regions none = ["us-east-1"] := by
  refine ⟨fun r hr => ⟨?_, fun v hv => ?_, fun e he => ?_⟩, fun r hr => ?_, rfl⟩
  · rw [process_account_lookup]; simp [hr]
  · simp [regionOutcome, hv]
  · simp [regionOutcome, he]
  · rw [process_account_lookup]; simp [hr]

/-- Witness for C2 at a concrete instance: two regions, the operation raises
in `"east"` and succeeds in `"west"`. -/
theorem claim2_witness :
    process_account
        (fun (_ : Account) (r : String) (_ : Nat) =>
          if r = "east" then Except.error "boom" else Except.ok (PyVal.vstr "good"))
        (resolve_regions (some ["east", "west"])) ⟨"222", "T2"⟩ 7 "east" =
      some (regionOutcome
        (fun (_ : Account) (r : String) (_ : Nat) =>
          if r = "east" then Except.error "boom" else Except.ok (PyVal.vstr "good"))
        ⟨"222", "T2"⟩ "east" 7) :=
  ((claim2_per_region_completeness
      (fun (_ : Account) (r : String) (_ : Nat) =>
        if r = "east" then Except.error "boom" else Except.ok (PyVal.vstr "good"))
      (some ["east", "west"]) ⟨"222", "T2"⟩ 7).1 "east" (by decide)).1

theorem runTaskFold_notmem {σ : Type}
    (runTask : Account → σ → Except String (SDict PyVal)) :
    ∀ (tasks : List (Account × σ)) (acc : SDict (SDict PyVal)) (x : String),
      x ∉ tasks.map (fun p => p.1.Id) → runTaskFold runTask tasks acc x = acc x := by
  intro tasks
  induction tasks with
  | nil => intro acc x _; rfl
  | cons p rest ih =>
    intro acc x hx
    simp only [List.map_cons, List.mem_cons, not_or] at hx
    have hstep : runTaskFold runTask (p :: rest) acc =
        runTaskFold runTask rest
          (match runTask p.1 p.2 with
            | Except.ok m => SDict.insert acc p.1.Id m
            | Except.error _ => acc) := rfl
    rw [hstep, ih _ x hx.2]
    cases h : runTask p.1 p.2 with
    | ok m => simp [SDict.insert, hx.1]
    | error e => rfl

theorem runTaskFold_mem {σ : Type}
    (runTask : Account → σ → Except String (SDict PyVal)) :
    ∀ (tasks : List (Account × σ)) (acc : SDict (SDict PyVal)) (a : Account)
      (s : σ), (tasks.map (fun p => p.1.Id)).Nodup → (a, s) ∈ tasks →
      runTaskFold runTask tasks acc a.Id =
        (match runTask a s with
          | Except.ok m => some m
          | Except.error _ => acc a.Id) := by
  intro tasks
  induction tasks with
  | nil => intro acc a s _ hmem; exact absurd hmem (List.not_mem_nil _)
  | cons p rest ih =>
    intro acc a s hN hmem
    simp only [List.map_cons, List.nodup_cons] at hN
    have hstep : runTaskFold runTask (p :: rest) acc =
        runTaskFold runTask rest
          (match runTask p.1 p.2 with
            | Except.ok m => SDict.insert acc p.1.Id m
            | Except.error _ => acc) := rfl
    rcases List.mem_cons.mp hmem with heq | hrest
    · subst heq
      rw [hstep, runTaskFold_notmem runTask rest _ a.Id hN.1]
      cases h : runTask a s with
      | ok m => simp [SDict.insert]
      | error e => rfl
    · rw [hstep, ih _ a s hN.2 hrest]
      have hne : a.Id ≠ p.1.Id := by
        intro heq2
        exact hN.1 (heq2 ▸ List.mem_map.mpr ⟨(a, s), hrest, rfl⟩)
      cases h : runTask a s with
      | ok m => rfl
      | error e =>
        cases h2 : runTask p.1 p.2 with
        | ok m => simp [SDict.insert, hne]
        | error e2 => rfl

theorem tasksOf_sublist {σ : Type} (resolveSession : Account → Except String σ) :
    ∀ (resources : List Account),
      ((tasksOf resolveSession resources).map (fun p => p.1.Id)).Sublist
        (resources.map Account.Id) := by
  intro resources
  induction resources with
  | nil => simp [tasksOf]
  | cons a l ih =>
    simp only [tasksOf, List.filterMap_cons, List.map_cons]
    cases h : resolveSession a with
    | ok s =>
      simp only [List.map_cons]
      exact ih.cons₂ _
    | error e => exact ih.cons _

theorem tasksOf_mem {σ : Type} (resolveSession : Account → Except String σ)
    (a : Account) (s : σ) :
    ∀ (resources : List Account), a ∈ resources →
      resolveSession a = Except.ok s → (a, s) ∈ tasksOf resolveSession resources := by
  intro resources
  induction resources with
  | nil => intro h _; exact absurd h (List.not_mem_nil _)
  | cons b l ih =>
    intro hmem hs
    rcases List.mem_cons.mp hmem with heq | hl
    · subst heq
      simp only [tasksOf, List.filterMap_cons, hs]
      exact List.mem_cons_self _ _
    · have hrec := ih hl hs
      simp only [tasksOf, List.filterMap_cons]
      cases h : resolveSession b with
      | ok t => exact List.mem_cons_of_mem _ hrec
      | error e => exact hrec

theorem tasksOf_src {σ : Type} (resolveSession : Account → Except String σ)
    (p : Account × σ) :
    ∀ (resources : List Account), p ∈ tasksOf resolveSession resources →
      p.1 ∈ resources ∧ resolveSession p.1 = Except.ok p.2 := by
  intro resources
  induction resources with
  | nil => intro h; exact absurd h (List.not_mem_nil _)
  | cons a l ih =>
    intro hmem
    simp only [tasksOf, List.filterMap_cons] at hmem
    cases h : resolveSession a with
    | ok s =>
      rw [h] at hmem
      rcases List.mem_cons.mp hmem with heq | htail
      · subst heq
        exact ⟨List.mem_cons_self _ _, h⟩
      · obtain ⟨hb, hok⟩ := ih htail
        exact ⟨List.mem_cons_of_mem _ hb, hok⟩
    | error e2 =>
      rw [h] at hmem
      obtain ⟨hb, hok⟩ := ih hmem
      exact ⟨List.mem_cons_of_mem _ hb, hok⟩

/-- Claim C1: in `process_account_set` run over the normal task body
(`process_account`), a target whose identity resolution raises is entirely
absent from the returned batch result (no key), while a target whose
identity resolves appears with exactly its `process_account` region map: the
operation's return value for each succeeding region and the failure marker
`False` for each raising region. -/
theorem claim1_batch_failure_isolation {σ : Type}
    (resolveSession : Account → Except String σ)
    (op : Account → String → σ → Except String PyVal) (regions : List String)
    (resources : List Account) (hN : (resources.map Account.Id).Nodup)
    (a : Account) (ha : a ∈ resources) :
    (∀ e, resolveSession a = Except.error e →
        process_account_set_run resolveSession op regions resources a.Id = none)
    ∧ (∀ s, resolveSession a = Except.ok s →
        process_account_set_run resolveSession op regions resources a.Id =
            some (process_account op regions a s)
        ∧ ∀ r, r ∈ regions →
            (∀ v, op a r s = Except.ok v →
                process_account op regions a s r = some v)
            ∧ (∀ e, op a r s = Except.error e →
                process_account op regions a s r = some (PyVal.vbool false))) := by
  constructor
  · intro e he
    show runTaskFold (fun a s => Except.ok (process_account op regions a s))
        (tasksOf resolveSession resources) SDict.empty a.Id = none
    rw [runTaskFold_notmem]
    · rfl
    · intro hmem
      obtain ⟨p, hp, hid⟩ := List.mem_map.mp hmem
      obtain ⟨hpsrc, hpok⟩ := tasksOf_src resolveSession p resources hp
      have hba : p.1 = a := List.inj_on_of_nodup_map hN hpsrc ha hid
      rw [hba, he] at hpok
      exact absurd hpok (by simp)
  · intro s hs
    have hmem := tasksOf_mem resolveSession a s resources ha hs
    have hNt : ((tasksOf resolveSession resources).map (fun p => p.1.Id)).Nodup :=
      hN.sublist (tasksOf_sublist resolveSession resources)
    constructor
    · show runTaskFold (fun a s => Except.ok (process_account op regions a s))
          (tasksOf resolveSession resources) SDict.empty a.Id = _
      rw [runTaskFold_mem _ _ _ a s hNt hmem]
    · intro r hr
      constructor
      · intro v hv
        rw [process_account_lookup]
        simp [hr, regionOutcome, hv]
      · intro e he
        rw [process_account_lookup]
        simp [hr, regionOutcome, he]

/-- Witness for C1: the concrete batch `[T1, T2]` over regions
`["east", "west"]`, where `T1`'s resolution fails, `T2`'s `"east"`
operation raises and its `"west"` operation succeeds. -/
theorem claim1_witness :
    process_account_set_run demoResolve demoOp ["east", "west"] [T1, T2] T1.Id =
        none
    ∧ process_account_set_run demoResolve demoOp ["east", "west"] [T1, T2] T2.Id =
        some (process_account demoOp ["east", "west"] T2 7)
    ∧ process_account demoOp ["east", "west"] T2 7 "east" =
        some (PyVal.vbool false)
    ∧ process_account demoOp ["east", "west"] T2 7 "west" =
        some (PyVal.vstr "good") :=
  ⟨(claim1_batch_failure_isolation demoResolve demoOp ["east", "west"] [T1, T2]
      (by decide) T1 (by decide)).1 "denied" rfl,
   ((claim1_batch_failure_isolation demoResolve demoOp ["east", "west"] [T1, T2]
      (by decide) T2 (by decide)).2 7 rfl).1,
   (((claim1_batch_failure_isolation demoResolve demoOp ["east", "west"] [T1, T2]
      (by decide) T2 (by decide)).2 7 rfl).2 "east" (by decide)).2 "boom" rfl,
   (((claim1_batch_failure_isolation demoResolve demoOp ["east", "west"] [T1, T2]
      (by decide) T2 (by decide)).2 7 rfl).2 "west" (by decide)).1
     (PyVal.vstr "good") rfl⟩

/-- Claim C3: a task whose unexpected failure surfaces at the fan-in
completion boundary (`f.exception()`) is dropped entirely from the batch
result, while every sibling whose resolution and task both complete keeps
its full region map. -/
theorem claim3_task_error_exclusion {σ : Type}
    (resolveSession : Account → Except String σ)
    (runTask : Account → σ → Except String (SDict PyVal))
    (resources : List Account) (hN : (resources.map Account.Id).Nodup)
    (a : Account) (ha : a ∈ resources) (s : σ)
    (hs : resolveSession a = Except.ok s) (e : String)
    (he : runTask a s = Except.error e) :
    process_account_set resolveSession runTask resources a.Id = none
    ∧ ∀ b, b ∈ resources → ∀ t m, resolveSession b = Except.ok t →
        runTask b t = Except.ok m →
        process_account_set resolveSession runTask resources b.Id = some m := by
  have hNt : ((tasksOf resolveSession resources).map (fun p => p.1.Id)).Nodup :=
    hN.sublist (tasksOf_sublist resolveSession resources)
  constructor
  · have hmem := tasksOf_mem resolveSession a s resources ha hs
    show runTaskFold runTask (tasksOf resolveSession resources) SDict.empty a.Id = none
    rw [runTaskFold_mem runTask _ SDict.empty a s hNt hmem, he]
    rfl
  · intro b hb t m hbt hbm
    have hmemb := tasksOf_mem resolveSession b t resources hb hbt
    show runTaskFold runTask (tasksOf resolveSession resources) SDict.empty b.Id =
        some m
    rw [runTaskFold_mem runTask _ SDict.empty b t hNt hmemb, hbm]

/-- Witness for C3: in the batch `[T2, T3]`, `T2`'s task fails unexpectedly
at the completion boundary and is dropped; `T3`'s completed region map
(which itself holds a caught-failure marker) is kept. -/
theorem claim3_witness :
    process_account_set demoResolve demoRunTask [T2, T3] T2.Id = none
    ∧ process_account_set demoResolve demoRunTask [T2, T3] T3.Id =
        some demoTaskMap :=
  ⟨(claim3_task_error_exclusion demoResolve demoRunTask [T2, T3] (by decide)
      T2 (by decide) 7 rfl "bug" rfl).1,
   (claim3_task_error_exclusion demoResolve demoRunTask [T2, T3] (by decide)
      T2 (by decide) 7 rfl "bug" rfl).2 T3 (by decide) 7 demoTaskMap rfl rfl⟩

theorem reach_step_iff (client : Client) (r x : String) :
    (∃ c ∈ ouChildren client r, x = c ∨ Relation.TransGen (ouChild client) c x) ↔
      Relation.TransGen (ouChild client) r x := by
  constructor
  · rintro ⟨c, hc, hx | hx⟩
    · subst hx; exact Relation.TransGen.single hc
    · exact Relation.TransGen.head hc hx
  · intro hTG
    rcases Relation.TransGen.head'_iff.mp hTG with ⟨c, hc, hcx⟩
    rcases Relation.reflTransGen_iff_eq_or_transGen.mp hcx with heq | htrans
    · exact ⟨c, hc, Or.inl heq⟩
    · exact ⟨c, hc, Or.inr htrans⟩

theorem getOusForRootsLoop_spec (client : Client) :
    ∀ (fuel : Nat) (rs : List String) (fs out : Finset String) (rem : List String),
      getOusForRootsLoop client fuel rs fs = some (out, rem) →
      ∀ x, x ∈ out ↔ x ∈ fs ∨ ∃ r ∈ rs, Relation.TransGen (ouChild client) r x := by
  intro fuel
  induction fuel with
  | zero =>
    intro rs fs out rem h x
    cases rs with
    | nil =>
      have h2 : some ((fs, []) : Finset String × List String) = some (out, rem) := h
      injection h2 with h3
      injection h3 with h4 h5
      subst h4
      simp
    | cons r rs2 =>
      have h2 : (none : Option (Finset String × List String)) = some (out, rem) := h
      exact Option.noConfusion h2
  | succ fuel ih =>
    intro rs fs out rem h x
    cases rs with
    | nil =>
      have h2 : some ((fs, []) : Finset String × List String) = some (out, rem) := h
      injection h2 with h3
      injection h3 with h4 h5
      subst h4
      simp
    | cons r rs2 =>
      have h2 : getOusForRootsLoop client fuel (rs2 ++ ouChildren client r)
          (fs ∪ (ouChildren client r).toFinset) = some (out, rem) := h
      rw [ih _ _ _ _ h2 x]
      constructor
      · rintro (hfs | ⟨r2, hr2, hTG⟩)
        · rcases Finset.mem_union.mp hfs with h1 | h1
          · exact Or.inl h1
          · exact Or.inr ⟨r, List.mem_cons_self _ _,
              Relation.TransGen.single (List.mem_toFinset.mp h1)⟩
        · rcases List.mem_append.mp hr2 with hm | hm
          · exact Or.inr ⟨r2, List.mem_cons_of_mem _ hm, hTG⟩
          · exact Or.inr ⟨r, List.mem_cons_self _ _, Relation.TransGen.head hm hTG⟩
      · rintro (hfs | ⟨r2, hr2, hTG⟩)
        · exact Or.inl (Finset.mem_union_left _ hfs)
        · rcases List.mem_cons.mp hr2 with heq | hm
          · subst heq
            rcases (reach_step_iff client r2 x).mpr hTG with ⟨c, hc, hxc | hxc⟩
            · subst hxc
              exact Or.inl (Finset.mem_union_right _ (List.mem_toFinset.mpr hc))
            · exact Or.inr ⟨c, List.mem_append_right _ hc, hxc⟩
          · exact Or.inr ⟨r2, List.mem_append_left _ hm, hTG⟩

/-- Claim C7: whenever the frontier loop of `get_ous_for_roots` completes,
the returned set is exactly the given roots together with every group
reachable from a root through one or more group-typed child steps —
account-typed children never enter it. -/
theorem claim7_group_expansion (client : Client) (fuel : Nat)
    (roots : List String) (out : Finset String) (rem : List String)
    (h : get_ous_for_roots client fuel roots = some (out, rem)) (x : String) :
    x ∈ out ↔ x ∈ roots ∨ ∃ r ∈ roots, Relation.TransGen (ouChild client) r x := by
  rw [getOusForRootsLoop_spec client fuel roots roots.toFinset out rem h x]
  rw [List.mem_toFinset]

/-- Witness for C7: on the hierarchy where root `"R"` has group child
`"A"` and account child `"B"`, and `"A"` has group child `"C"`, the walk
from `["R"]` returns exactly `{"R", "A", "C"}`, and `"C"` is in it by
transitive reachability. -/
theorem claim7_witness :
    "C" ∈ ({"R", "A", "C"} : Finset String) ↔
      "C" ∈ ["R"] ∨ ∃ r ∈ ["R"], Relation.TransGen (ouChild demoClient) r "C" :=
  claim7_group_expansion demoClient 3 ["R"] {"R", "A", "C"} [] (by decide) "C"

theorem getOusForRootsLoop_congr (client client2 : Client)
    (hsame : ∀ p, ouChildren client2 p = ouChildren client p) :
    ∀ (fuel : Nat) (rs : List String) (fs : Finset String),
      getOusForRootsLoop client2 fuel rs fs = getOusForRootsLoop client fuel rs fs := by
  intro fuel
  induction fuel with
  | zero =>
    intro rs fs
    cases rs with
    | nil => rfl
    | cons r rs2 => rfl
  | succ fuel ih =>
    intro rs fs
    cases rs with
    | nil => rfl
    | cons r rs2 =>
      show getOusForRootsLoop client2 fuel (rs2 ++ ouChildren client2 r)
          (fs ∪ (ouChildren client2 r).toFinset) =
        getOusForRootsLoop client fuel (rs2 ++ ouChildren client r)
          (fs ∪ (ouChildren client r).toFinset)
      rw [hsame r, ih]

/-- Claim C8: re-running `get_ous_for_roots` with the same root values over
an unchanged group hierarchy (even through a different client observing the
same group-typed children) returns the same result, so repeated expansion
is idempotent. -/
theorem claim8_idempotent_reexpansion (client client2 : Client) (fuel : Nat)
    (roots roots2 : List String)
    (hsame : ∀ p, ouChildren client2 p = ouChildren client p)
    (hroots : roots2 = roots) :
    get_ous_for_roots client2 fuel roots2 = get_ous_for_roots client fuel roots := by
  subst hroots
  exact getOusForRootsLoop_congr client client2 hsame fuel roots2 roots2.toFinset

/-- Witness for C8: `demoClientB` lists the same group children as
`demoClient` (its account listings differ), and both walks from `["R"]`
agree. -/
theorem claim8_witness :
    get_ous_for_roots demoClientB 3 ["R"] = get_ous_for_roots demoClient 3 ["R"] :=
  claim8_idempotent_reexpansion demoClient demoClientB 3 ["R"] ["R"]
    (fun _ => rfl) rfl

theorem getOusForRootsLoop_drains (client : Client) :
    ∀ (fuel : Nat) (rs : List String) (fs out : Finset String) (rem : List String),
      getOusForRootsLoop client fuel rs fs = some (out, rem) → rem = [] := by
  intro fuel
  induction fuel with
  | zero =>
    intro rs fs out rem h
    cases rs with
    | nil =>
      have h2 : some ((fs, []) : Finset String × List String) = some (out, rem) := h
      injection h2 with h3
      injection h3 with h4 h5
      exact h5.symm
    | cons r rs2 =>
      have h2 : (none : Option (Finset String × List String)) = some (out, rem) := h
      exact Option.noConfusion h2
  | succ fuel ih =>
    intro rs fs out rem h
    cases rs with
    | nil =>
      have h2 : some ((fs, []) : Finset String × List String) = some (out, rem) := h
      injection h2 with h3
      injection h3 with h4 h5
      exact h5.symm
    | cons r rs2 =>
      exact ih (rs2 ++ ouChildren client r) (fs ∪ (ouChildren client r).toFinset)
        out rem h

theorem filter_mem_empty_ids :
    ∀ (l : List Account),
      l.filter (fun r => decide (r.Id ∈ (∅ : Finset String))) = [] := by
  intro l
  induction l with
  | nil => rfl
  | cons a l ih => simp [ih]

theorem ouFilterProcess_nil_units (client : Client) (fuel : Nat)
    (resources2 : List Account) :
    ouFilterProcess client fuel ⟨[]⟩ resources2 = some ([], (⟨[]⟩ : OUFilterData)) := by
  have hempty : get_ous_for_roots client fuel ([] : List String) =
      some ((∅ : Finset String), []) := by
    cases fuel <;> rfl
  unfold ouFilterProcess
  rw [hempty]
  show some (resources2.filter
      (fun r => decide (r.Id ∈ get_accounts_for_ous client (∅ : Finset String))),
      (⟨[]⟩ : OUFilterData)) = some ([], ⟨[]⟩)
  rw [show get_accounts_for_ous client (∅ : Finset String) = (∅ : Finset String)
      from rfl]
  rw [filter_mem_empty_ids]

/-- Claim C9: a completed `get_ous_for_roots` call leaves the caller's
`roots` list empty (every element is popped), and since
`OrganizationUnit.process` passes `self.data["units"]` by reference, a
second invocation of the same filter instance runs on an empty root set and
keeps no resources. -/
theorem claim9_roots_drained (client : Client) (fuel : Nat) (st : OUFilterData)
    (resources res1 : List Account) (st1 : OUFilterData)
    (h : ouFilterProcess client fuel st resources = some (res1, st1)) :
    st1.units = []
    ∧ ∀ resources2, ouFilterProcess client fuel st1 resources2 = some ([], st1) := by
  unfold ouFilterProcess at h
  cases hg : get_ous_for_roots client fuel st.units with
  | none =>
    rw [hg] at h
    exact Option.noConfusion h
  | some pr =>
    obtain ⟨ous, rem⟩ := pr
    rw [hg] at h
    have hrem : rem = [] :=
      getOusForRootsLoop_drains client fuel st.units st.units.toFinset ous rem hg
    injection h with h2
    injection h2 with h3 h4
    have hunits : st1.units = [] := by rw [← h4, hrem]
    refine ⟨hunits, fun resources2 => ?_⟩
    have hst1 : st1 = ⟨[]⟩ := by
      cases st1
      simp_all
    rw [hst1]
    exact ouFilterProcess_nil_units client fuel resources2

/-- Witness for C9: running the ou filter once on the demo hierarchy leaves
the configured units list empty, and a second invocation of the same
instance keeps no resources. -/
theorem claim9_witness :
    (⟨[]⟩ : OUFilterData).units = []
    ∧ ouFilterProcess demoClient 3 ⟨[]⟩ [⟨"B", "bname"⟩] = some ([], ⟨[]⟩) :=
  ⟨(claim9_roots_drained demoClient 3 ⟨["R"]⟩ [⟨"B", "bname"⟩, ⟨"Z", "zname"⟩]
      [⟨"B", "bname"⟩] ⟨[]⟩ (by decide)).1,
   (claim9_roots_drained demoClient 3 ⟨["R"]⟩ [⟨"B", "bname"⟩, ⟨"Z", "zname"⟩]
      [⟨"B", "bname"⟩] ⟨[]⟩ (by decide)).2 [⟨"B", "bname"⟩]⟩

theorem expandCost_pos (b : Nat) : ∀ k, 1 ≤ expandCost b k := by
  intro k
  cases k with
  | zero => exact le_refl 1
  | succ k =>
    show 1 ≤ 1 + b * expandCost b k
    omega

theorem expandCost_le_succ (b : Nat) : ∀ k, expandCost b k ≤ expandCost b (k + 1) := by
  intro k
  induction k with
  | zero =>
    show 1 ≤ 1 + b * expandCost b 0
    omega
  | succ k ih =>
    have h1 : expandCost b (k + 1) = 1 + b * expandCost b k := rfl
    have h2 : expandCost b (k + 1 + 1) = 1 + b * expandCost b (k + 1) := rfl
    have h3 := Nat.mul_le_mul_left b ih
    omega

theorem expandCost_mono (b : Nat) (k k2 : Nat) (h : k ≤ k2) :
    expandCost b k ≤ expandCost b k2 := by
  induction h with
  | refl => exact le_refl _
  | step h2 ih => exact le_trans ih (expandCost_le_succ b _)

theorem getOusForRootsLoop_total (client : Client) (h : String → Nat) (b : Nat)
    (hrank : ∀ p c, c ∈ ouChildren client p → h c < h p)
    (hb : ∀ p, (ouChildren client p).length ≤ b) :
    ∀ (fuel : Nat) (rs : List String) (fs : Finset String),
      (rs.map (fun r => expandCost b (h r))).sum ≤ fuel →
      (getOusForRootsLoop client fuel rs fs).isSome := by
  intro fuel
  induction fuel with
  | zero =>
    intro rs fs hsum
    cases rs with
    | nil => rfl
    | cons r rs2 =>
      exfalso
      simp only [List.map_cons, List.sum_cons] at hsum
      have h1 := expandCost_pos b (h r)
      omega
  | succ fuel ih =>
    intro rs fs hsum
    cases rs with
    | nil => rfl
    | cons r rs2 =>
      show (getOusForRootsLoop client fuel (rs2 ++ ouChildren client r)
        (fs ∪ (ouChildren client r).toFinset)).isSome
      apply ih
      rw [List.map_append, List.sum_append]
      simp only [List.map_cons, List.sum_cons] at hsum
      have hchild : ((ouChildren client r).map (fun c => expandCost b (h c))).sum + 1 ≤
          expandCost b (h r) := by
        cases hr : h r with
        | zero =>
          have hempty : ouChildren client r = [] := by
            cases hcs : ouChildren client r with
            | nil => rfl
            | cons c cs =>
              exfalso
              have hlt := hrank r c (by rw [hcs]; exact List.mem_cons_self c cs)
              rw [hr] at hlt
              omega
          rw [hempty]
          simp [expandCost]
        | succ k =>
          have hle : ∀ x ∈ (ouChildren client r).map (fun c => expandCost b (h c)),
              x ≤ expandCost b k := by
            intro x hx
            obtain ⟨c, hc, hxc⟩ := List.mem_map.mp hx
            subst hxc
            have hlt := hrank r c hc
            rw [hr] at hlt
            exact expandCost_mono b (h c) k (by omega)
          have hsum2 := List.sum_le_card_nsmul
            ((ouChildren client r).map (fun c => expandCost b (h c)))
            (expandCost b k) hle
          rw [List.length_map, smul_eq_mul] at hsum2
          have hblen : (ouChildren client r).length * expandCost b k ≤
              b * expandCost b k := Nat.mul_le_mul_right _ (hb r)
          have hcost : expandCost b (k + 1) = 1 + b * expandCost b k := rfl
          omega
      omega

/-- Claim C10: for every finite acyclic group hierarchy — certified by a
rank function decreasing along group-typed child edges and a bound on the
number of group children per node — the frontier loop of
`get_ous_for_roots` terminates: some fuel makes it complete with the
frontier exhausted. -/
theorem claim10_termination (client : Client) (h : String → Nat) (b : Nat)
    (hrank : ∀ p c, c ∈ ouChildren client p → h c < h p)
    (hb : ∀ p, (ouChildren client p).length ≤ b) (roots : List String) :
    ∃ fuel, (get_ous_for_roots client fuel roots).isSome :=
  ⟨(roots.map (fun r => expandCost b (h r))).sum,
    getOusForRootsLoop_total client h b hrank hb _ roots roots.toFinset
      (le_refl _)⟩

/-- Witness for C10: the demo hierarchy is acyclic (ranked by `demoRank`
with at most one group child per node), so the walk from `["R"]`
terminates. -/
theorem claim10_witness : ∃ fuel, (get_ous_for_roots demoClient fuel ["R"]).isSome :=
  claim10_termination demoClient demoRank 1
    (by
      intro p c hc
      simp only [ouChildren, demoClient] at hc
      split_ifs at hc with h1 h2
      · simp only [List.mem_singleton] at hc
        subst hc
        subst h1
        decide
      · simp only [List.mem_singleton] at hc
        subst hc
        subst h2
        decide
      · exact absurd hc (List.not_mem_nil c))
    (by
      intro p
      simp only [ouChildren, demoClient]
      split_ifs <;> simp)
    ["R"]

/-- Claim C4: `account_session`'s role-identifier resolution — a
fully-qualified identifier template (starting with `"arn"`) gets the
target's id substituted verbatim for the `org_account_id` placeholder,
while a bare role name is synthesized into
`<partition>:iam::<target.id>:role/<roleName>` with the constant
partition `arn:aws`. -/
theorem claim4_role_resolution (role accountId : String) :
    (strStartsWith role "arn" = true →
      resolveRoleArn role accountId =
        role.replace "{org_account_id}" accountId)
    ∧ (strStartsWith role "arn" = false →
      resolveRoleArn role accountId =
        "arn:aws:iam::" ++ accountId ++ ":role/" ++ role) := by
  constructor
  · intro h
    simp [resolveRoleArn, pyFormatOrgAccountId, h]
  · intro h
    simp [resolveRoleArn, h]

/-- Witness for C4: a fully-qualified template and a bare role name. -/
theorem claim4_witness :
    resolveRoleArn "arn:aws:iam::{org_account_id}:role/Custodian" "123" =
      ("arn:aws:iam::{org_account_id}:role/Custodian").replace
        "{org_account_id}" "123"
    ∧ resolveRoleArn "MyRole" "123" =
      "arn:aws:iam::" ++ "123" ++ ":role/" ++ "MyRole" :=
  ⟨(claim4_role_resolution "arn:aws:iam::{org_account_id}:role/Custodian"
      "123").1 (by decide),
   (claim4_role_resolution "MyRole" "123").2 (by decide)⟩

/-- Claim C5: two `account_session` calls against the same worker-local
cache that resolve to the same role identifier return the identical cached
session, and the second call performs no assumption call against the
credential provider. -/
theorem claim5_cache_identity {σ : Type}
    (assumedSession : String → String → String → σ → σ)
    (cache : List (String × σ)) (orgSession : σ) (orgRegion : String)
    (a a2 : Account) (role role2 : String)
    (hsame : resolveRoleArn role2 a2.Id = resolveRoleArn role a.Id) :
    (account_session assumedSession
        (account_session assumedSession cache orgSession orgRegion a role).cache
        orgSession orgRegion a2 role2).s =
      (account_session assumedSession cache orgSession orgRegion a role).s
    ∧ (account_session assumedSession
        (account_session assumedSession cache orgSession orgRegion a role).cache
        orgSession orgRegion a2 role2).calls = [] := by
  cases hl : cache.lookup (resolveRoleArn role a.Id) with
  | some s => simp [account_session, hsame, hl]
  | none => simp [account_session, hsame, hl]

/-- Witness for C5: repeated resolution of the same role for the same
account against an initially empty worker cache. -/
theorem claim5_witness :
    (account_session (fun _ _ _ n => n + 1)
        (account_session (fun _ _ _ n => n + 1) [] 0 "us-east-1"
          ⟨"123", "x"⟩ "MyRole").cache
        0 "us-east-1" ⟨"123", "x"⟩ "MyRole").s =
      (account_session (fun _ _ _ n => n + 1) [] 0 "us-east-1"
        ⟨"123", "x"⟩ "MyRole").s
    ∧ (account_session (fun _ _ _ n => n + 1)
        (account_session (fun _ _ _ n => n + 1) [] 0 "us-east-1"
          ⟨"123", "x"⟩ "MyRole").cache
        0 "us-east-1" ⟨"123", "x"⟩ "MyRole").calls = [] :=
  claim5_cache_identity (fun _ _ _ n => n + 1) [] 0 "us-east-1"
    ⟨"123", "x"⟩ ⟨"123", "x"⟩ "MyRole" "MyRole" rfl

/-- Claim C6: `get_org_session` memoizes — after one call the stored
session is returned unchanged with no further assumption call — and on a
fresh instance returns the local session when no org-access-role parses
from the query (or when a Lambda execution carries a member-role mode),
and otherwise a session assumed for the configured role under the constant
label `ORG_ACCOUNT_SESSION_NAME`. -/
theorem claim6_root_session {σ : Type}
    (assumedSession : String → String → String → σ → σ) (localSession : σ)
    (factoryRegion : String) (lambdaTaskRoot memberRole : Bool)
    (query : List (List (String × String))) (orgSession : Option σ)
    (hfresh : orgSession = none) :
    (get_org_session assumedSession localSession factoryRegion lambdaTaskRoot
        memberRole query
        (get_org_session assumedSession localSession factoryRegion
          lambdaTaskRoot memberRole query orgSession).session =
      ⟨(get_org_session assumedSession localSession factoryRegion
          lambdaTaskRoot memberRole query orgSession).s,
        (get_org_session assumedSession localSession factoryRegion
          lambdaTaskRoot memberRole query orgSession).session, []⟩)
    ∧ (parse_access_role query = none →
        (get_org_session assumedSession localSession factoryRegion
          lambdaTaskRoot memberRole query orgSession).s = localSession)
    ∧ (∀ r, parse_access_role query = some r → r ≠ "" →
        ((lambdaTaskRoot ∧ memberRole) →
          (get_org_session assumedSession localSession factoryRegion
            lambdaTaskRoot memberRole query orgSession).s = localSession)
        ∧ (¬(lambdaTaskRoot ∧ memberRole) →
          (get_org_session assumedSession localSession factoryRegion
            lambdaTaskRoot memberRole query orgSession).s =
            assumedSession r ORG_ACCOUNT_SESSION_NAME factoryRegion
              localSession)) := by
  subst hfresh
  cases hq : parse_access_role query with
  | none =>
    have hgos : get_org_session assumedSession localSession factoryRegion
        lambdaTaskRoot memberRole query none =
        ⟨localSession, some localSession, []⟩ := by
      simp [get_org_session, hq]
    refine ⟨?_, fun _ => ?_, fun r hr => Option.noConfusion hr⟩
    · rw [hgos]
      rfl
    · rw [hgos]
  | some r2 =>
    by_cases hcond : r2 ≠ "" ∧ ¬(lambdaTaskRoot ∧ memberRole)
    · have hgos : get_org_session assumedSession localSession factoryRegion
          lambdaTaskRoot memberRole query none =
          ⟨assumedSession r2 ORG_ACCOUNT_SESSION_NAME factoryRegion
              localSession,
            some (assumedSession r2 ORG_ACCOUNT_SESSION_NAME factoryRegion
              localSession), [r2]⟩ := by
        simp only [get_org_session, hq]
        rw [if_pos hcond]
      refine ⟨?_, fun h0 => Option.noConfusion h0, fun r hr hrne => ?_⟩
      · rw [hgos]
        rfl
      · injection hr with hr2
        subst hr2
        exact ⟨fun hlm => absurd hlm hcond.2, fun _ => by rw [hgos]⟩
    · have hgos : get_org_session assumedSession localSession factoryRegion
          lambdaTaskRoot memberRole query none =
          ⟨localSession, some localSession, []⟩ := by
        simp only [get_org_session, hq]
        rw [if_neg hcond]
      refine ⟨?_, fun h0 => Option.noConfusion h0, fun r hr hrne => ?_⟩
      · rw [hgos]
        rfl
      · injection hr with hr2
        subst hr2
        refine ⟨fun _ => by rw [hgos], fun hnlm => absurd ⟨hrne, hnlm⟩ hcond⟩

/-- Witness for C6: a fresh instance with `org-access-role` configured,
outside Lambda: the root session is assumed from the local session. -/
theorem claim6_witness :
    (get_org_session (fun _ _ _ n => n + 5) 0 "us-east-1" false false
      [[("org-access-role", "OrgRole")]] none).s = 5 :=
  ((claim6_root_session (fun _ _ _ n => n + 5) 0 "us-east-1" false false
      [[("org-access-role", "OrgRole")]] none rfl).2.2 "OrgRole" (by decide)
    (by decide)).2 (by decide)

end CustodianOrg
